import Mathlib

/-!
# Verification of the Ollama text-compressor pipeline (`main.go`)

Shallow embedding of the chunk-processing pipeline of the Go program:

* the chunker loop (`main.go` lines 119-135) splitting a byte stream into
  chunks of at most `chunkSize` bytes;
* the per-chunk retry loop (`main.go` lines 174-196) making up to
  `maxRetries` attempts and falling back to the original chunk text;
* the result-collection loop (`main.go` lines 205-220) writing each
  `ChunkResult` into its slot by index and joining with `"\n\n"`;
* the semaphore-bounded worker pool (`main.go` lines 156-168) as a
  transition system;
* the response parsing of `processChunk` (`main.go` lines 309-351) over a
  JSON value model of Go's `encoding/json`.

Bytes are modelled as `Nat`, byte strings as `List Nat`; the `"\n\n"`
separator is the byte list `[10, 10]`.
-/

namespace LLMTxt

/-- Maximum chunk size in bytes (`chunkSize = 4000` in main.go). -/
def chunkSize : Nat := 4000

/-- Maximum concurrent requests (`maxConcurrentRequests = 3`). -/
def maxConcurrentRequests : Nat := 3

/-- Max retries for failed requests (`maxRetries = 3`). -/
def maxRetries : Nat := 3

/-- `ChunkResult` from main.go: index, content and optional error.
Content is a byte string (`List Nat`); the error is modelled by its
message. -/
structure ChunkResult where
  index : Nat
  content : List Nat
  error : Option String
  deriving DecidableEq, Repr

/-- The chunker loop of main.go (lines 119-135): repeatedly `Read` up to
`S` bytes from the file and append `chunk[:n]`.  For a file,
`bufio.Reader.Read` returns `min S remaining` bytes while the stream is
non-empty and `(0, io.EOF)` once it is exhausted, so the loop is the
deterministic splitting below. -/
def chunksOf (S : Nat) (input : List Nat) : List (List Nat) :=
  if h : input = [] ∨ S = 0 then []
  else input.take S :: chunksOf S (input.drop S)
termination_by input.length
decreasing_by
  push_neg at h
  simp only [List.length_drop]
  have h1 : input.length ≠ 0 := by
    simpa [List.length_eq_zero] using h.1
  omega

/-- The per-chunk retry loop (main.go lines 174-186): attempt the call,
break on success, otherwise keep the last error; at most `r` further
attempts remain.  Returns the number of attempts actually made together
with the final outcome. -/
def retryAux (call : Nat → Except String (List Nat)) :
    Nat → Nat → Nat × Except String (List Nat)
  | attempt, 0 => (attempt, Except.error "")
  | attempt, r + 1 =>
    match call attempt with
    | Except.ok s => (attempt + 1, Except.ok s)
    | Except.error e =>
      if r = 0 then (attempt + 1, Except.error e)
      else retryAux call (attempt + 1) r

/-- Run the retry loop from attempt 0 with the budget `maxRetries`. -/
def processWithRetries (call : Nat → Except String (List Nat)) :
    Nat × Except String (List Nat) :=
  retryAux call 0 maxRetries

/-- The worker body's final result (main.go lines 188-193): on success the
processed text, on exhausted retries the original chunk content together
with the last error. -/
def workerResult (index : Nat) (content : List Nat)
    (call : Nat → Except String (List Nat)) : ChunkResult :=
  match (processWithRetries call).2 with
  | Except.ok s => ⟨index, s, none⟩
  | Except.error e => ⟨index, content, some e⟩

/-- The collection loop (main.go lines 206-217): start from
`make([]string, n)` (n empty slots) and write each arriving result into
the slot named by its index. -/
def collectResults (n : Nat) (results : List ChunkResult) : List (List Nat) :=
  results.foldl (fun acc r => acc.set r.index r.content) (List.replicate n [])

/-- `strings.Join(processedChunks, "\n\n")` over byte strings. -/
def joinChunks (l : List (List Nat)) : List Nat :=
  List.intercalate [10, 10] l

/-- The error counter of the collection loop (main.go lines 209-212). -/
def countErrors (results : List ChunkResult) : Nat :=
  (results.filter (fun r => r.error.isSome)).length

/-!
## JSON model

`processChunk` parses response bodies with `encoding/json`.  We model a
parsed JSON document as a `JValue`; a body or line that is not valid JSON
is represented as `none : Option JValue`.  Go object decoding processes
duplicate keys in input order with the last occurrence winning, hence
`lookupLast`.
-/

/-- A JSON value, as produced by `encoding/json`. -/
inductive JValue where
  | null : JValue
  | jbool : Bool → JValue
  | jnum : Int → JValue
  | jstr : String → JValue
  | jarr : List JValue → JValue
  | jobj : List (String × JValue) → JValue

/-- Key lookup in a decoded JSON object: with duplicate keys the last
occurrence wins, as in `encoding/json`. -/
def lookupLast (fields : List (String × JValue)) (k : String) : Option JValue :=
  fields.foldl (fun acc f => if f.1 = k then some f.2 else acc) none

/-- Decoding a JSON field into a Go `string`: an absent field or a JSON
`null` leaves the zero value `""`; a JSON string is taken verbatim; any
other JSON type is an unmarshalling error. -/
def decodeString : Option JValue → Except String String
  | none => Except.ok ""
  | some JValue.null => Except.ok ""
  | some (JValue.jstr s) => Except.ok s
  | some _ => Except.error "cannot unmarshal into field of type string"

/-- Decoding a JSON field into a Go `bool` (zero value `false`). -/
def decodeBool : Option JValue → Except String Bool
  | none => Except.ok false
  | some JValue.null => Except.ok false
  | some (JValue.jbool b) => Except.ok b
  | some _ => Except.error "cannot unmarshal into field of type bool"

/-- Decoding into `OllamaGenerateResponse` (`{response string, done bool}`,
main.go lines 22-25): the top level must be a JSON object (or `null`,
which leaves the zero values). -/
def decodeGenerateResp : JValue → Except String (String × Bool)
  | JValue.null => Except.ok ("", false)
  | JValue.jobj fields => do
    let resp ← decodeString (lookupLast fields "response")
    let done ← decodeBool (lookupLast fields "done")
    Except.ok (resp, done)
  | _ => Except.error "cannot unmarshal into OllamaGenerateResponse"

/-- Decoding the nested `Message {role, content}` struct of
`OllamaCompletionResponse` (main.go lines 30-33); returns `(role, content)`. -/
def decodeMessage : Option JValue → Except String (String × String)
  | none => Except.ok ("", "")
  | some JValue.null => Except.ok ("", "")
  | some (JValue.jobj m) => do
    let role ← decodeString (lookupLast m "role")
    let content ← decodeString (lookupLast m "content")
    Except.ok (role, content)
  | some _ => Except.error "cannot unmarshal into field Message"

/-- Decoding into `OllamaCompletionResponse` (main.go lines 27-35),
returning `Message.Content` (the only field the program reads). -/
def decodeChatResp : JValue → Except String String
  | JValue.null => Except.ok ""
  | JValue.jobj fields => do
    let _ ← decodeString (lookupLast fields "model")
    let _ ← decodeString (lookupLast fields "created_at")
    let rc ← decodeMessage (lookupLast fields "message")
    let _ ← decodeBool (lookupLast fields "done")
    Except.ok rc.2
  | _ => Except.error "cannot unmarshal into OllamaCompletionResponse"

/-- The streaming `generate` parse loop (main.go lines 309-327): scan the
body line by line, unmarshal each line, accumulate `Response`, stop after
the first line with `Done = true`.  A `none` line is text that is not
valid JSON, i.e. a failing `json.Unmarshal`. -/
def parseGenerate : List (Option JValue) → Except String String
  | [] => Except.ok ""
  | line :: rest =>
    match line with
    | none => Except.error "error parsing streaming response line"
    | some j =>
      match decodeGenerateResp j with
      | Except.error _ => Except.error "error parsing streaming response line"
      | Except.ok (resp, done) =>
        if done then Except.ok resp
        else
          match parseGenerate rest with
          | Except.ok tail => Except.ok (resp ++ tail)
          | Except.error e => Except.error e

/-- The generic-map fallback of the chat parse (main.go lines 340-350):
unmarshal into `map[string]interface{}` (fails unless the top level is a
JSON object), then extract `result["message"].(map)["content"].(string)`
by type-asserted key lookups. -/
def chatFallback : JValue → Except String String
  | JValue.jobj fields =>
    match lookupLast fields "message" with
    | some (JValue.jobj m) =>
      match lookupLast m "content" with
      | some (JValue.jstr c) => Except.ok c
      | _ => Except.error "could not extract content from chat API response"
    | _ => Except.error "could not extract content from chat API response"
  | _ => Except.error "error parsing chat response"

/-- The chat-mode response parse (main.go lines 328-351): first unmarshal
into `OllamaCompletionResponse`; if that succeeds with non-empty
`Message.Content`, return it; otherwise fall through to the generic-map
parse.  `none` is a body that is not valid JSON, on which both
unmarshals fail. -/
def parseChat : Option JValue → Except String String
  | none => Except.error "error parsing chat response"
  | some j =>
    match decodeChatResp j with
    | Except.ok c => if c = "" then chatFallback j else Except.ok c
    | Except.error _ => chatFallback j

/-!
## Whole-run model

`main` (lines 57-250): pre-flight flag checks, chunking, per-chunk retry
workers, collection by index, join with `"\n\n"`, write, summary and
compression ratio.  The network call of one chunk is abstracted as
`call : Nat → Nat → Except String (List Nat)` mapping chunk index and
attempt number to the outcome of that `processChunk` invocation.
-/

/-- Observable outcome of one program run.  `written` is the content of
the output file when one is written; `ratioPrinted`/`ratioPair` record
whether the compression-ratio line is printed and the
numerator/denominator (input bytes, output bytes) of the printed
quotient. -/
structure RunOutcome where
  exitCode : Nat
  written : Option (List Nat)
  errorCount : Nat
  ratioPrinted : Bool
  ratioPair : Nat × Nat
  deriving DecidableEq, Repr

/-- The compression-ratio step (main.go lines 241-249): `os.Stat` the
output file; when it returns no error, print
`float64(fileSize)/float64(outputInfo.Size())`.  Returns the
numerator/denominator pair of the printed ratio, or `none` when nothing
is printed. -/
def ratioLine (statOk : Bool) (inputSize outputSize : Nat) : Option (Nat × Nat) :=
  if statOk then some (inputSize, outputSize) else none

/-- A full run of `main`: the `-input` check (lines 67-71), the `-api`
check (lines 74-78), chunking, the worker results delivered in chunk
order, collection, join, write and the ratio line.  Collection is
order-insensitive (proved below), so in-order delivery is the canonical
denotation.  `os.Stat` of the file just written by the successful
`os.WriteFile` succeeds, so the ratio step runs with `statOk = true`. -/
def fullRun (inputFlag apiFlag : String) (input : List Nat)
    (call : Nat → Nat → Except String (List Nat)) : RunOutcome :=
  if inputFlag = "" then ⟨1, none, 0, false, (0, 0)⟩
  else if apiFlag = "generate" ∨ apiFlag = "chat" then
    let chunks := chunksOf chunkSize input
    let results := (List.range chunks.length).map
      (fun i => workerResult i (chunks.getD i []) (call i))
    let processed := collectResults chunks.length results
    let out := joinChunks processed
    let ratio := ratioLine true input.length out.length
    ⟨0, some out, countErrors results, ratio.isSome, ratio.getD (0, 0)⟩
  else ⟨1, none, 0, false, (0, 0)⟩

/-!
## Worker-pool transition system

Main.go lines 156-168: the main goroutine performs `semaphore <- struct{}{}`
(blocking while `maxConcurrentRequests` slots are occupied) before
spawning each worker; the worker's deferred `<-semaphore` releases the
slot on every exit path.  We model the occupancy of the semaphore channel
and each worker's lifecycle; a send is enabled only while occupancy is
below capacity.
-/

/-- Lifecycle of one chunk's worker. -/
inductive WStatus where
  | idle : WStatus
  | running : WStatus
  | done : WStatus
  deriving DecidableEq, Repr

/-- A pool state: per-worker status plus semaphore-channel occupancy. -/
structure PoolState where
  workers : List WStatus
  sem : Nat
  deriving DecidableEq, Repr

/-- Number of worker bodies currently active. -/
def countRunning (l : List WStatus) : Nat :=
  (l.filter (fun s => s = WStatus.running)).length

/-- One scheduler step: `start i` is the main goroutine's semaphore send
(enabled only while occupancy is below capacity) followed by spawning
worker `i`; `finish i` is worker `i` terminating, its deferred receive
releasing the slot on every exit path. -/
inductive PoolStep : PoolState → PoolState → Prop where
  | start (st : List WStatus) (sem i : Nat)
      (hi : st[i]? = some WStatus.idle)
      (hsem : sem < maxConcurrentRequests) :
      PoolStep ⟨st, sem⟩ ⟨st.set i WStatus.running, sem + 1⟩
  | finish (st : List WStatus) (sem i : Nat)
      (hi : st[i]? = some WStatus.running) :
      PoolStep ⟨st, sem⟩ ⟨st.set i WStatus.done, sem - 1⟩

/-- Initial state of a run over `n` chunks: all workers idle, semaphore
empty. -/
def initPool (n : Nat) : PoolState :=
  ⟨List.replicate n WStatus.idle, 0⟩

/-- States reachable during a run over `n` chunks. -/
def PoolReachable (n : Nat) (s : PoolState) : Prop :=
  Relation.ReflTransGen PoolStep (initPool n) s

/-- A well-formed streaming line `{"response": r, "done": d}` as sent by
the generate endpoint. -/
def mkGenLine (r : String) (d : Bool) : Option JValue :=
  some (JValue.jobj [("response", JValue.jstr r), ("done", JValue.jbool d)])

/-- In-order concatenation of a list of `response` fields, as the
`strings.Builder` of the generate parse accumulates them. -/
def concatResponses : List String → String
  | [] => ""
  | s :: t => s ++ concatResponses t

/-!
## Helper lemmas
-/

/-- Unfolding equation of the chunker. -/
theorem chunksOf_eq (S : Nat) (input : List Nat) :
    chunksOf S input =
      if input = [] ∨ S = 0 then []
      else input.take S :: chunksOf S (input.drop S) := by
  rw [chunksOf]
  split <;> rfl

/-- The chunker on the empty stream yields no chunks. -/
theorem chunksOf_nil (S : Nat) : chunksOf S [] = [] := by
  rw [chunksOf_eq]
  simp

/-- Concatenating the chunker's output reproduces the input. -/
theorem chunksOf_flatten (S : Nat) (input : List Nat) (hS : 0 < S) :
    (chunksOf S input).flatten = input := by
  induction input using chunksOf.induct S with
  | case1 input h =>
    rcases h with h | h
    · subst h; rw [chunksOf_nil]; rfl
    · omega
  | case2 input h ih =>
    rw [chunksOf_eq, if_neg h]
    simp [ih, List.take_append_drop]

/-- Every chunk produced by the chunker has length at most `S`. -/
theorem chunksOf_length_le (S : Nat) (input : List Nat) :
    ∀ c ∈ chunksOf S input, c.length ≤ S := by
  induction input using chunksOf.induct S with
  | case1 input h =>
    rw [chunksOf_eq, if_pos h]
    simp
  | case2 input h ih =>
    rw [chunksOf_eq, if_neg h]
    intro c hc
    rcases List.mem_cons.mp hc with rfl | hc
    · simp [List.length_take_le]
    · exact ih c hc

/-- The collection fold preserves the length of the accumulator
(`List.set` never grows a list). -/
theorem foldl_set_length (l : List ChunkResult) (acc : List (List Nat)) :
    (l.foldl (fun a r => a.set r.index r.content) acc).length = acc.length := by
  induction l generalizing acc with
  | nil => rfl
  | cons r t ih => simp [List.foldl_cons, ih, List.length_set]

/-- Contents of the collection fold: when every arriving result carries
content `f` of its index and every index is in range, slot `i` ends up
holding `f i` as soon as some result with index `i` arrived, and keeps
its initial value otherwise. -/
theorem foldl_set_getElem? (l : List ChunkResult) (f : Nat → List Nat)
    (hf : ∀ r ∈ l, r.content = f r.index)
    (acc : List (List Nat)) (hidx : ∀ r ∈ l, r.index < acc.length) (i : Nat) :
    (l.foldl (fun a r => a.set r.index r.content) acc)[i]? =
      if i ∈ l.map (fun r => r.index) then some (f i) else acc[i]? := by
  induction l generalizing acc with
  | nil => simp
  | cons r t ih =>
    have hr : r.content = f r.index := hf r (List.mem_cons_self r t)
    have hri : r.index < acc.length := hidx r (List.mem_cons_self r t)
    rw [List.foldl_cons,
      ih (fun x hx => hf x (List.mem_cons_of_mem r hx))
        (acc.set r.index r.content)
        (fun x hx => by
          rw [List.length_set]; exact hidx x (List.mem_cons_of_mem r hx))]
    by_cases hmem : i ∈ t.map (fun r => r.index)
    · simp [hmem]
    · simp only [hmem, if_false, List.map_cons, List.mem_cons]
      rw [List.getElem?_set]
      by_cases hei : r.index = i
      · subst hei
        simp [hri, hr]
      · simp [hei, hmem, Ne.symm hei]

/-- Collecting results that arrive in any order `order` which is a
permutation of `0..n-1`, each carrying content `f` of its index, fills
slot `i` with `f i` for every `i < n`. -/
theorem collectResults_map (n : Nat) (f : Nat → List Nat) (e : Nat → Option String)
    (order : List Nat) (hperm : order.Perm (List.range n)) :
    collectResults n (order.map fun i => ⟨i, f i, e i⟩) = (List.range n).map f := by
  have hmem : ∀ i, i ∈ order ↔ i < n := by
    intro i
    rw [hperm.mem_iff, List.mem_range]
  apply List.ext_getElem?
  intro i
  rw [collectResults, foldl_set_getElem? _ f
    (by intro r hr; simp only [List.mem_map] at hr; rcases hr with ⟨j, _, rfl⟩; rfl)
    _
    (by
      intro r hr
      simp only [List.mem_map] at hr
      rcases hr with ⟨j, hj, rfl⟩
      simpa [List.length_replicate] using (hmem j).mp hj)]
  rw [List.map_map]
  have hmap : order.map ((fun r => r.index) ∘ fun i => (⟨i, f i, e i⟩ : ChunkResult))
      = order := by
    simp only [Function.comp_def]
    exact List.map_id order
  rw [hmap]
  by_cases hi : i < n
  · rw [if_pos ((hmem i).mpr hi)]
    simp [List.getElem?_map, List.getElem?_range hi]
  · have h1 : ¬ i ∈ order := fun h => hi ((hmem i).mp h)
    have h2 : (List.replicate n ([] : List Nat))[i]? = none := by
      rw [List.getElem?_eq_none]
      simpa using Nat.le_of_not_lt hi
    have h3 : ((List.range n).map f)[i]? = none := by
      rw [List.getElem?_eq_none]
      simpa using Nat.le_of_not_lt hi
    simp [h1, h2, h3]

/-- A list is the range-indexed map of its own entries. -/
theorem map_getD_range (l : List (List Nat)) :
    (List.range l.length).map (fun i => l.getD i []) = l := by
  apply List.ext_getElem?
  intro i
  by_cases hi : i < l.length
  · rw [List.getElem?_map, List.getElem?_range hi]
    simp [List.getD_eq_getElem l [] hi, List.getElem?_eq_getElem hi]
  · have h1 : ((List.range l.length).map (fun i => l.getD i []))[i]? = none := by
      rw [List.getElem?_eq_none]
      simpa using Nat.le_of_not_lt hi
    have h2 : l[i]? = none := by
      rw [List.getElem?_eq_none]
      exact Nat.le_of_not_lt hi
    rw [h1, h2]

/-- When every attempt fails, the retry loop makes exactly `maxRetries`
attempts and ends with the error of the last attempt. -/
theorem processWithRetries_allFail (call : Nat → Except String (List Nat))
    (h : ∀ a, ∃ e, call a = Except.error e) :
    ∃ e, processWithRetries call = (3, Except.error e) ∧ call 2 = Except.error e := by
  obtain ⟨e0, h0⟩ := h 0
  obtain ⟨e1, h1⟩ := h 1
  obtain ⟨e2, h2⟩ := h 2
  refine ⟨e2, ?_, h2⟩
  show retryAux call 0 3 = (3, Except.error e2)
  simp [retryAux, h0, h1, h2]

/-- When every attempt fails, the worker's result is the original chunk
content tagged with the last error. -/
theorem workerResult_allFail (index : Nat) (content : List Nat)
    (call : Nat → Except String (List Nat))
    (h : ∀ a, ∃ e, call a = Except.error e) :
    ∃ e, workerResult index content call = ⟨index, content, some e⟩ := by
  obtain ⟨e, he, -⟩ := processWithRetries_allFail call h
  exact ⟨e, by rw [workerResult, he]⟩

/-- One `cons` step of the running-count. -/
theorem countRunning_cons (x : WStatus) (t : List WStatus) :
    countRunning (x :: t) =
      (if x = WStatus.running then 1 else 0) + countRunning t := by
  rw [countRunning, countRunning, List.filter_cons]
  split <;> simp_all <;> omega

/-- Setting a known entry changes the running-count by the difference of
the old and new entry's contributions (additive form). -/
theorem countRunning_set (l : List WStatus) (i : Nat) (a b : WStatus)
    (ha : l[i]? = some a) :
    countRunning (l.set i b) + (if a = WStatus.running then 1 else 0) =
      countRunning l + (if b = WStatus.running then 1 else 0) := by
  induction l generalizing i with
  | nil => simp at ha
  | cons x t ih =>
    cases i with
    | zero =>
      simp only [List.getElem?_cons_zero, Option.some_inj] at ha
      subst ha
      rw [List.set_cons_zero, countRunning_cons, countRunning_cons]
      omega
    | succ j =>
      simp only [List.getElem?_cons_succ] at ha
      rw [List.set_cons_succ, countRunning_cons, countRunning_cons]
      have := ih j ha
      omega

/-- The running-count of the all-idle initial pool is zero. -/
theorem countRunning_replicate_idle (n : Nat) :
    countRunning (List.replicate n WStatus.idle) = 0 := by
  induction n with
  | zero => rfl
  | succ m ih =>
    rw [List.replicate_succ, countRunning_cons, ih]
    rfl

/-- Starting an idle worker increments the running-count. -/
theorem countRunning_set_start (l : List WStatus) (i : Nat)
    (hi : l[i]? = some WStatus.idle) :
    countRunning (l.set i WStatus.running) = countRunning l + 1 := by
  have h := countRunning_set l i WStatus.idle WStatus.running hi
  rw [show (if WStatus.idle = WStatus.running then (1 : Nat) else 0) = 0 from rfl,
    show (if WStatus.running = WStatus.running then (1 : Nat) else 0) = 1 from rfl] at h
  omega

/-- Finishing a running worker decrements the running-count. -/
theorem countRunning_set_finish (l : List WStatus) (i : Nat)
    (hi : l[i]? = some WStatus.running) :
    countRunning (l.set i WStatus.done) + 1 = countRunning l := by
  have h := countRunning_set l i WStatus.running WStatus.done hi
  rw [show (if WStatus.running = WStatus.running then (1 : Nat) else 0) = 1 from rfl,
    show (if WStatus.done = WStatus.running then (1 : Nat) else 0) = 0 from rfl] at h
  omega

/-- Pool invariant: in every reachable state the semaphore occupancy
equals the number of running workers and never exceeds the capacity. -/
theorem pool_invariant (n : Nat) (s : PoolState) (h : PoolReachable n s) :
    countRunning s.workers = s.sem ∧ s.sem ≤ maxConcurrentRequests := by
  induction h with
  | refl =>
    exact ⟨countRunning_replicate_idle n, Nat.zero_le _⟩
  | tail hr step ih =>
    cases step with
    | start st sem i hi hsem =>
      obtain ⟨ih1, ih2⟩ := ih
      have hset := countRunning_set_start st i hi
      simp only at ih1 ih2 ⊢
      omega
    | finish st sem i hi =>
      obtain ⟨ih1, ih2⟩ := ih
      have hset := countRunning_set_finish st i hi
      simp only at ih1 ih2 ⊢
      omega

/-- Unfolding of a run that passes the pre-flight checks. -/
theorem fullRun_completed (inputFlag apiFlag : String) (input : List Nat)
    (call : Nat → Nat → Except String (List Nat))
    (h1 : inputFlag ≠ "") (h2 : apiFlag = "generate" ∨ apiFlag = "chat") :
    fullRun inputFlag apiFlag input call =
      ⟨0,
       some (joinChunks (collectResults (chunksOf chunkSize input).length
         ((List.range (chunksOf chunkSize input).length).map
           (fun i => workerResult i ((chunksOf chunkSize input).getD i []) (call i))))),
       countErrors ((List.range (chunksOf chunkSize input).length).map
         (fun i => workerResult i ((chunksOf chunkSize input).getD i []) (call i))),
       true,
       (input.length,
        (joinChunks (collectResults (chunksOf chunkSize input).length
          ((List.range (chunksOf chunkSize input).length).map
            (fun i => workerResult i ((chunksOf chunkSize input).getD i []) (call i))))).length)⟩ := by
  unfold fullRun
  rw [if_neg h1, if_pos h2]
  rfl

/-- A run over an always-failing endpoint: exit code 0, the output file
holds the original chunks joined by `"\n\n"`, and every chunk counts as
an error. -/
theorem fullRun_allFail (inputFlag apiFlag : String) (input : List Nat)
    (call : Nat → Nat → Except String (List Nat))
    (h1 : inputFlag ≠ "") (h2 : apiFlag = "generate" ∨ apiFlag = "chat")
    (h : ∀ i a, ∃ e, call i a = Except.error e) :
    fullRun inputFlag apiFlag input call =
      ⟨0, some (joinChunks (chunksOf chunkSize input)),
        (chunksOf chunkSize input).length, true,
        (input.length, (joinChunks (chunksOf chunkSize input)).length)⟩ := by
  classical
  have hex : ∀ i : Nat, ∃ e, workerResult i ((chunksOf chunkSize input).getD i []) (call i)
      = ⟨i, (chunksOf chunkSize input).getD i [], some e⟩ :=
    fun i => workerResult_allFail i _ (call i) (h i)
  have hE : ∀ i, workerResult i ((chunksOf chunkSize input).getD i []) (call i)
      = ⟨i, (chunksOf chunkSize input).getD i [],
          some (Classical.choose (hex i))⟩ :=
    fun i => Classical.choose_spec (hex i)
  have hres : (List.range (chunksOf chunkSize input).length).map
        (fun i => workerResult i ((chunksOf chunkSize input).getD i []) (call i))
      = (List.range (chunksOf chunkSize input).length).map
        (fun i => ⟨i, (chunksOf chunkSize input).getD i [],
          some (Classical.choose (hex i))⟩) :=
    List.map_congr_left (fun i _ => hE i)
  have hcollect : collectResults (chunksOf chunkSize input).length
        ((List.range (chunksOf chunkSize input).length).map
          (fun i => ⟨i, (chunksOf chunkSize input).getD i [],
            some (Classical.choose (hex i))⟩))
      = chunksOf chunkSize input := by
    rw [collectResults_map (chunksOf chunkSize input).length
      (fun i => (chunksOf chunkSize input).getD i [])
      (fun i => some (Classical.choose (hex i)))
      (List.range (chunksOf chunkSize input).length) (List.Perm.refl _)]
    exact map_getD_range (chunksOf chunkSize input)
  have hcnt : countErrors ((List.range (chunksOf chunkSize input).length).map
        (fun i => (⟨i, (chunksOf chunkSize input).getD i [],
          some (Classical.choose (hex i))⟩ : ChunkResult)))
      = (chunksOf chunkSize input).length := by
    rw [countErrors, List.filter_eq_self.mpr, List.length_map, List.length_range]
    intro r hr
    simp only [List.mem_map] at hr
    rcases hr with ⟨j, _, rfl⟩
    rfl
  rw [fullRun_completed inputFlag apiFlag input call h1 h2, hres, hcollect, hcnt]

/-!
## Claim theorems
-/

/-- Claim C1: over `n` chunks, the indices of the collected `ChunkResult`s
are exactly `{0..n-1}` with no index missing or duplicated, and the
assembled output joins the per-index contents in strictly ascending index
order, regardless of the completion order of the workers.  Here `order`
is the arbitrary arrival order of the results (a permutation of
`0..n-1`, one result per worker), `f i` the content and `e i` the error
field of chunk `i`'s result. -/
theorem run_indices_exact_and_ordered (n : Nat) (f : Nat → List Nat)
    (e : Nat → Option String) (order : List Nat)
    (hperm : order.Perm (List.range n)) :
    ((order.map fun i => (⟨i, f i, e i⟩ : ChunkResult)).map
        (fun r => r.index)).Perm (List.range n)
    ∧ joinChunks (collectResults n (order.map fun i => ⟨i, f i, e i⟩))
        = joinChunks ((List.range n).map f) := by
  constructor
  · rw [List.map_map]
    have hmap : order.map ((fun r => r.index) ∘ fun i => (⟨i, f i, e i⟩ : ChunkResult))
        = order := by
      simp only [Function.comp_def]
      exact List.map_id order
    rw [hmap]
    exact hperm
  · rw [collectResults_map n f e order hperm]

/-- Witness for C1 at `n = 3` with arrival order `[2, 0, 1]`. -/
theorem run_indices_exact_and_ordered_witness :
    ((([2, 0, 1] : List Nat).map fun i => (⟨i, [i], none⟩ : ChunkResult)).map
        (fun r => r.index)).Perm (List.range 3)
    ∧ joinChunks (collectResults 3 (([2, 0, 1] : List Nat).map fun i => ⟨i, [i], none⟩))
        = joinChunks ((List.range 3).map fun i => [i]) :=
  run_indices_exact_and_ordered 3 (fun i => [i]) (fun _ => none) [2, 0, 1] (by decide)

/-- Claim C2: for every input byte stream and maximum chunk size `S`, the
chunker produces a finite sequence of chunks each of length at most `S`
whose in-order concatenation is byte-identical to the input. -/
theorem chunker_bound_and_roundtrip (S : Nat) (input : List Nat) (hS : 0 < S) :
    (∀ c ∈ chunksOf S input, c.length ≤ S)
    ∧ (chunksOf S input).flatten = input :=
  ⟨chunksOf_length_le S input, chunksOf_flatten S input hS⟩

/-- Witness for C2 at `S = 3` on a five-byte input. -/
theorem chunker_bound_and_roundtrip_witness :
    (∀ c ∈ chunksOf 3 [1, 2, 3, 4, 5], c.length ≤ 3)
    ∧ (chunksOf 3 [1, 2, 3, 4, 5]).flatten = [1, 2, 3, 4, 5] :=
  chunker_bound_and_roundtrip 3 [1, 2, 3, 4, 5] (by decide)

/-- Claim C3: when every call to the endpoint fails, each chunk's worker
makes exactly `maxRetries = 3` attempts, its final result carries the
original chunk content with a non-`none` error, and the run still
completes with exit code 0, writing the output file (the original chunks
joined by `"\n\n"`), counting every chunk as an error. -/
theorem all_attempts_fail_run (input : List Nat)
    (call : Nat → Nat → Except String (List Nat))
    (h : ∀ i a, ∃ e, call i a = Except.error e) :
    (∀ i, (processWithRetries (call i)).1 = maxRetries)
    ∧ (∀ i content, ∃ e,
        workerResult i content (call i) = ⟨i, content, some e⟩)
    ∧ fullRun "input.txt" "generate" input call =
        ⟨0, some (joinChunks (chunksOf chunkSize input)),
          (chunksOf chunkSize input).length, true,
          (input.length, (joinChunks (chunksOf chunkSize input)).length)⟩ := by
  refine ⟨?_, ?_, ?_⟩
  · intro i
    obtain ⟨e, he, -⟩ := processWithRetries_allFail (call i) (h i)
    rw [he]
    rfl
  · intro i content
    exact workerResult_allFail i content (call i) (h i)
  · exact fullRun_allFail "input.txt" "generate" input call (by decide)
      (Or.inl rfl) h

/-- Witness for C3 on a two-byte input with an endpoint that always
fails. -/
theorem all_attempts_fail_run_witness :
    (∀ i, (processWithRetries ((fun _ _ => Except.error "down" :
        Nat → Nat → Except String (List Nat)) i)).1 = maxRetries)
    ∧ (∀ i content, ∃ e,
        workerResult i content ((fun _ _ => Except.error "down" :
          Nat → Nat → Except String (List Nat)) i) = ⟨i, content, some e⟩)
    ∧ fullRun "input.txt" "generate" [7, 8]
        (fun _ _ => Except.error "down") =
        ⟨0, some (joinChunks (chunksOf chunkSize [7, 8])),
          (chunksOf chunkSize [7, 8]).length, true,
          ([7, 8].length, (joinChunks (chunksOf chunkSize [7, 8])).length)⟩ :=
  all_attempts_fail_run [7, 8] (fun _ _ => Except.error "down")
    (fun _ _ => ⟨"down", rfl⟩)

/-- Claim C4: at no instant during a run are more than
`maxConcurrentRequests = 3` worker bodies active: every reachable state
of the pool transition system (semaphore acquired before a worker starts,
released on every exit) has at most 3 running workers. -/
theorem pool_at_most_k_running (n : Nat) (s : PoolState)
    (h : PoolReachable n s) :
    countRunning s.workers ≤ maxConcurrentRequests := by
  obtain ⟨h1, h2⟩ := pool_invariant n s h
  rw [h1]
  exact h2

/-- Witness for C4: the state of a one-chunk run after admitting its
worker is reachable and satisfies the bound. -/
theorem pool_at_most_k_running_witness :
    countRunning (PoolState.mk [WStatus.running] 1).workers
      ≤ maxConcurrentRequests :=
  pool_at_most_k_running 1 ⟨[WStatus.running], 1⟩
    (Relation.ReflTransGen.single
      (PoolStep.start [WStatus.idle] 0 0 rfl (by decide)))

/-- Claim C5: in generate mode the parser accumulates the `response`
fields in line order until a `done: true` object ends the stream (any
lines after it are ignored), the concrete two-line example parses to
`"abcd"`, and a malformed line before the `done` object is a parse error
for the chunk. -/
theorem parseGenerate_spec :
    (∀ (pre : List String) (last : String) (rest : List (Option JValue)),
      parseGenerate (pre.map (fun r => mkGenLine r false)
          ++ mkGenLine last true :: rest)
        = Except.ok (concatResponses pre ++ last))
    ∧ parseGenerate [mkGenLine "ab" false, mkGenLine "cd" true]
        = Except.ok "abcd"
    ∧ (∀ (pre : List String) (rest : List (Option JValue)),
      parseGenerate (pre.map (fun r => mkGenLine r false) ++ none :: rest)
        = Except.error "error parsing streaming response line") := by
  have accum : ∀ (pre : List String) (last : String)
      (rest : List (Option JValue)),
      parseGenerate (pre.map (fun r => mkGenLine r false)
          ++ mkGenLine last true :: rest)
        = Except.ok (concatResponses pre ++ last) := by
    intro pre last rest
    induction pre with
    | nil =>
      show Except.ok last = Except.ok ("" ++ last)
      simp [concatResponses]
    | cons p t ih =>
      rw [List.map_cons, List.cons_append]
      show (match parseGenerate (t.map (fun r => mkGenLine r false)
          ++ mkGenLine last true :: rest) with
        | Except.ok tail => Except.ok (p ++ tail)
        | Except.error e => Except.error e) = _
      rw [ih]
      show Except.ok (p ++ (concatResponses t ++ last)) = _
      rw [concatResponses, String.append_assoc]
  refine ⟨accum, ?_, ?_⟩
  · rfl
  · intro pre rest
    induction pre with
    | nil => rfl
    | cons p t ih =>
      rw [List.map_cons, List.cons_append]
      show (match parseGenerate (t.map (fun r => mkGenLine r false)
          ++ none :: rest) with
        | Except.ok tail => Except.ok (p ++ tail)
        | Except.error e => Except.error e) = _
      rw [ih]

/-- Claim C6: in chat mode, a body of the canonical shape
`{"message":{"role":r,"content":c}}` with non-empty `c` yields `c`; the
body `{"message":{"content":"x"}}` yields `"x"`; and an error is
returned exactly when neither the struct decode yields non-empty content
nor the generic-map fallback finds a string `message.content`. -/
theorem parseChat_spec :
    (∀ (r c : String), c ≠ "" →
      parseChat (some (JValue.jobj [("message", JValue.jobj
          [("role", JValue.jstr r), ("content", JValue.jstr c)])]))
        = Except.ok c)
    ∧ parseChat (some (JValue.jobj
          [("message", JValue.jobj [("content", JValue.jstr "x")])]))
        = Except.ok "x"
    ∧ (∀ j : JValue, (∃ e, parseChat (some j) = Except.error e) ↔
        ((∀ c, decodeChatResp j = Except.ok c → c = "")
          ∧ ∃ e, chatFallback j = Except.error e)) := by
  refine ⟨?_, rfl, ?_⟩
  · intro r c hc
    show (if c = "" then chatFallback (JValue.jobj [("message", JValue.jobj
        [("role", JValue.jstr r), ("content", JValue.jstr c)])])
      else Except.ok c) = Except.ok c
    rw [if_neg hc]
  · intro j
    show (∃ e, (match decodeChatResp j with
        | Except.ok c => if c = "" then chatFallback j else Except.ok c
        | Except.error _ => chatFallback j) = Except.error e) ↔ _
    rcases hd : decodeChatResp j with e | c
    · simp only [hd]
      constructor
      · intro he
        refine ⟨fun c hc => ?_, he⟩
        simp at hc
      · intro h
        exact h.2
    · simp only [hd]
      by_cases hc : c = ""
      · rw [if_pos hc]
        constructor
        · intro he
          refine ⟨fun c' hc' => ?_, he⟩
          rw [← hc]
          exact (Except.ok.injEq _ _ ▸ hc').symm ▸ rfl
        · intro h
          exact h.2
      · rw [if_neg hc]
        constructor
        · intro ⟨e, he⟩
          simp at he
        · intro ⟨h1, _⟩
          exact absurd (h1 c rfl) hc

/-- Witness for C6: the canonical chat body with role `"assistant"` and
content `"hello"` parses to `"hello"`. -/
theorem parseChat_spec_witness :
    parseChat (some (JValue.jobj [("message", JValue.jobj
        [("role", JValue.jstr "assistant"), ("content", JValue.jstr "hello")])]))
      = Except.ok "hello" :=
  parseChat_spec.1 "assistant" "hello" (by decide)

/-- Claim C9: in chat mode, a JSON body whose `message.content` field is
the empty string parses to the empty string with no error (via the
generic-map fallback); present-but-empty content is never a parse
failure. -/
theorem parseChat_empty_content (fields m : List (String × JValue))
    (hmsg : lookupLast fields "message" = some (JValue.jobj m))
    (hcontent : lookupLast m "content" = some (JValue.jstr "")) :
    parseChat (some (JValue.jobj fields)) = Except.ok "" := by
  have hfb : chatFallback (JValue.jobj fields) = Except.ok "" := by
    simp only [chatFallback, hmsg, hcontent]
  have hdec : ∀ c, decodeChatResp (JValue.jobj fields) = Except.ok c → c = "" := by
    intro c hc
    simp only [decodeChatResp] at hc
    rcases h1 : decodeString (lookupLast fields "model") with e1 | v1
    · rw [h1] at hc
      simp only [Bind.bind, Except.bind] at hc
      exact Except.noConfusion hc
    · rw [h1] at hc
      simp only [Bind.bind, Except.bind] at hc
      rcases h2 : decodeString (lookupLast fields "created_at") with e2 | v2
      · rw [h2] at hc
        exact Except.noConfusion hc
      · rw [h2] at hc
        rw [hmsg] at hc
        simp only [decodeMessage, Bind.bind, Except.bind] at hc
        rw [hcontent] at hc
        rcases h3 : decodeString (lookupLast m "role") with e3 | v3
        · rw [h3] at hc
          exact Except.noConfusion hc
        · rw [h3] at hc
          simp only [decodeString] at hc
          rcases h4 : decodeBool (lookupLast fields "done") with e4 | v4
          · rw [h4] at hc
            exact Except.noConfusion hc
          · rw [h4] at hc
            injection hc with h
            exact h.symm
  show (match decodeChatResp (JValue.jobj fields) with
    | Except.ok c => if c = "" then chatFallback (JValue.jobj fields)
        else Except.ok c
    | Except.error _ => chatFallback (JValue.jobj fields)) = Except.ok ""
  rcases hd : decodeChatResp (JValue.jobj fields) with e | c
  · show chatFallback (JValue.jobj fields) = Except.ok ""
    exact hfb
  · show (if c = "" then chatFallback (JValue.jobj fields) else Except.ok c)
      = Except.ok ""
    rw [if_pos (hdec c hd)]
    exact hfb

/-- Witness for C9: the body `{"message":{"content":""}}` parses to the
empty string with no error. -/
theorem parseChat_empty_content_witness :
    parseChat (some (JValue.jobj
        [("message", JValue.jobj [("content", JValue.jstr "")])]))
      = Except.ok "" :=
  parseChat_empty_content
    [("message", JValue.jobj [("content", JValue.jstr "")])]
    [("content", JValue.jstr "")] rfl rfl

/-- Claim C7 counterexample: on an empty input file the run writes a
0-byte output file, yet the compression-ratio line is still printed —
the code (main.go lines 242-249) guards the ratio only on `os.Stat`
succeeding, never on the output size, so the claim that no ratio is
printed when the output size is 0 fails. -/
theorem ratio_printed_on_zero_output :
    (fullRun "book.txt" "generate" [] (fun _ _ => Except.error "down")).written
        = some []
    ∧ (fullRun "book.txt" "generate" []
        (fun _ _ => Except.error "down")).ratioPrinted = true := by
  have h := fullRun_completed "book.txt" "generate" []
    (fun _ _ => Except.error "down") (by decide) (Or.inl rfl)
  rw [chunksOf_nil] at h
  exact ⟨by rw [h]; rfl, by rw [h]⟩

/-- Claim C7 amended: the printed ratio's numerator and denominator are
input bytes and output bytes, but the line is printed on every completed
run — `os.Stat` of the just-written file succeeds — including runs whose
output file is 0 bytes (where the floating-point quotient is +Inf or
NaN rather than suppressed). -/
theorem ratio_pair_always_printed (inputFlag apiFlag : String)
    (input : List Nat) (call : Nat → Nat → Except String (List Nat))
    (h1 : inputFlag ≠ "") (h2 : apiFlag = "generate" ∨ apiFlag = "chat") :
    (fullRun inputFlag apiFlag input call).ratioPrinted = true
    ∧ (fullRun inputFlag apiFlag input call).ratioPair
        = (input.length,
           ((fullRun inputFlag apiFlag input call).written.getD []).length) := by
  rw [fullRun_completed inputFlag apiFlag input call h1 h2]
  exact ⟨rfl, rfl⟩

/-- Witness for the amended C7 on a one-byte input in chat mode. -/
theorem ratio_pair_always_printed_witness :
    (fullRun "book.txt" "chat" [1] (fun _ _ => Except.ok [2])).ratioPrinted = true
    ∧ (fullRun "book.txt" "chat" [1] (fun _ _ => Except.ok [2])).ratioPair
        = (([1] : List Nat).length,
           ((fullRun "book.txt" "chat" [1]
             (fun _ _ => Except.ok [2])).written.getD []).length) :=
  ratio_pair_always_printed "book.txt" "chat" [1] (fun _ _ => Except.ok [2])
    (by decide) (Or.inr rfl)

/-- Claim C8: the process exits 0 on completion regardless of per-chunk
failures, and exits 1 (printing usage) when `-input` is missing or
`-api` is neither "generate" nor "chat". -/
theorem exit_code_contract (inputFlag apiFlag : String) (input : List Nat)
    (call : Nat → Nat → Except String (List Nat)) :
    (inputFlag = "" → (fullRun inputFlag apiFlag input call).exitCode = 1)
    ∧ (¬(apiFlag = "generate" ∨ apiFlag = "chat") →
        (fullRun inputFlag apiFlag input call).exitCode = 1)
    ∧ (inputFlag ≠ "" → (apiFlag = "generate" ∨ apiFlag = "chat") →
        (fullRun inputFlag apiFlag input call).exitCode = 0) := by
  refine ⟨?_, ?_, ?_⟩
  · intro h
    unfold fullRun
    rw [if_pos h]
  · intro h
    unfold fullRun
    by_cases hin : inputFlag = ""
    · rw [if_pos hin]
    · rw [if_neg hin, if_neg h]
  · intro h1 h2
    rw [fullRun_completed inputFlag apiFlag input call h1 h2]

/-- Witness for C8: a run whose every chunk fails still exits 0. -/
theorem exit_code_contract_witness :
    (fullRun "in.txt" "generate" [1, 2]
      (fun _ _ => Except.error "down")).exitCode = 0 :=
  (exit_code_contract "in.txt" "generate" [1, 2]
    (fun _ _ => Except.error "down")).2.2 (by decide) (Or.inl rfl)

/-- Claim C10: on a 0-byte input the chunker produces zero chunks, the
run writes an empty (0-byte) output file and completes with exit code
0. -/
theorem empty_input_run (call : Nat → Nat → Except String (List Nat)) :
    chunksOf chunkSize [] = []
    ∧ (fullRun "input.txt" "generate" [] call).exitCode = 0
    ∧ (fullRun "input.txt" "generate" [] call).written = some [] := by
  have h := fullRun_completed "input.txt" "generate" [] call
    (by decide) (Or.inl rfl)
  rw [chunksOf_nil] at h
  exact ⟨chunksOf_nil chunkSize, by rw [h], by rw [h]; rfl⟩

end LLMTxt
